import Mathlib

/-!
Shallow embedding of the twitch-subgoal-overlay server (src/db.js, lines 23-342:
the express app with in-memory `tokensByChannel` / `goalsByChannel` stores, a
Postgres table `twitch_tokens` modelled as an association list, the OAuth
start/callback handlers, the token-refresh helper, the subscriber-count helper
with its single retry, and the goal set/read endpoints).

Network calls (axios) are modelled by oracle arguments: each outbound request's
outcome is an explicit parameter, so a handler is a pure function of the server
state and the provider's responses.  Machine strings are Lean `String`s;
JavaScript codepoints are `Nat`s at the codec level.
-/

/-! ### Characters and lowercasing

`String.prototype.toLowerCase` is modelled as ASCII lowercasing (the only case
mapping the channel names of this service exercise): codepoints 65-90 map to
97-122, everything else is fixed. -/

def lowerNat (n : Nat) : Nat :=
  if 65 ≤ n ∧ n ≤ 90 then n + 32 else n

def lowerChar (c : Char) : Char :=
  Char.ofNat (lowerNat c.toNat)

def lowerStr (s : String) : String :=
  String.mk (s.data.map lowerChar)

/-! ### Association-list maps

JavaScript plain objects used as maps (`tokensByChannel`, `goalsByChannel`)
and the `twitch_tokens` table are modelled as association lists with
first-match lookup and in-place replacement on assignment/upsert. -/

def getKey {α : Type} (m : List (String × α)) (k : String) : Option α :=
  match m with
  | [] => none
  | p :: rest => if p.1 = k then some p.2 else getKey rest k

def setKey {α : Type} (m : List (String × α)) (k : String) (v : α) : List (String × α) :=
  match m with
  | [] => [(k, v)]
  | p :: rest => if p.1 = k then (k, v) :: rest else p :: setKey rest k v

/-! ### Data model -/

/-- A credential record: value of `tokensByChannel[channel]` and (for the
columns other than the key) a row of `twitch_tokens`. -/
structure TokenInfo where
  access_token : String
  refresh_token : String
  broadcaster_id : String
deriving DecidableEq, Repr

/-- The mutable state of the server process: the two in-memory stores and the
durable `twitch_tokens` table (keyed by channel). -/
structure ServerState where
  tokensByChannel : List (String × TokenInfo)
  goalsByChannel : List (String × Int)
  db : List (String × TokenInfo)
deriving DecidableEq, Repr

def ServerState.empty : ServerState := ⟨[], [], []⟩

/-! ### JavaScript parseInt, radix 10

`parseInt(s, 10)`: skip leading whitespace, optional sign, then the longest
leading run of decimal digits; `NaN` (here: `none`) when that run is empty;
trailing garbage is ignored. -/

def isJsWs (c : Char) : Bool :=
  c = ' ' || c = '\t' || c = '\n' || c = '\r' || c = '\x0b' || c = '\x0c'

def isDigitChar (c : Char) : Bool :=
  48 ≤ c.toNat && c.toNat ≤ 57

def digitsVal (ds : List Char) : Nat :=
  ds.foldl (fun a c => a * 10 + (c.toNat - 48)) 0

def parseIntJS (s : String) : Option Int :=
  let cs := s.data.dropWhile isJsWs
  let signAndRest : Int × List Char :=
    match cs with
    | '-' :: r => (-1, r)
    | '+' :: r => (1, r)
    | _ => (1, cs)
  let digits := signAndRest.2.takeWhile isDigitChar
  if digits.isEmpty then none
  else some (signAndRest.1 * (digitsVal digits : Int))

/-! ### OAuth state codec

`startAuthorization` builds the state as
`Buffer.from(JSON.stringify({ channel })).toString('base64url')` (src/db.js:88);
the callback decodes it with
`JSON.parse(Buffer.from(state, 'base64url').toString('utf8')).channel.toLowerCase()`
(src/db.js:112-113).  Bytes and codepoints are `Nat`s.  The decoders are
modelled strictly (malformed base64url / UTF-8 / JSON yields `none`, where Node
decodes base64/UTF-8 leniently into mojibake that then fails `JSON.parse`); the
JSON parser covers the grammar `JSON.stringify({channel})` emits, without
insignificant whitespace. -/

def b64Char (n : Nat) : Nat :=
  if n < 26 then 65 + n
  else if n < 52 then 71 + n
  else if n < 62 then n - 4
  else if n = 62 then 45
  else 95

def b64Val (c : Nat) : Option Nat :=
  if 65 ≤ c ∧ c ≤ 90 then some (c - 65)
  else if 97 ≤ c ∧ c ≤ 122 then some (c - 71)
  else if 48 ≤ c ∧ c ≤ 57 then some (c + 4)
  else if c = 45 then some 62
  else if c = 95 then some 63
  else none

def b64Encode : List Nat → List Nat
  | [] => []
  | [a] => [b64Char (a / 4), b64Char (a % 4 * 16)]
  | [a, b] => [b64Char (a / 4), b64Char (a % 4 * 16 + b / 16), b64Char (b % 16 * 4)]
  | a :: b :: c :: rest =>
    b64Char (a / 4) :: b64Char (a % 4 * 16 + b / 16) :: b64Char (b % 16 * 4 + c / 64)
      :: b64Char (c % 64) :: b64Encode rest

def b64Decode : List Nat → Option (List Nat)
  | [] => some []
  | [_] => none
  | [x, y] =>
    match b64Val x, b64Val y with
    | some a, some b => some [a * 4 + b / 16]
    | _, _ => none
  | [x, y, z] =>
    match b64Val x, b64Val y, b64Val z with
    | some a, some b, some c => some [a * 4 + b / 16, b % 16 * 16 + c / 4]
    | _, _, _ => none
  | x :: y :: z :: w :: rest =>
    match b64Val x, b64Val y, b64Val z, b64Val w with
    | some a, some b, some c, some d =>
      (fun t => (a * 4 + b / 16) :: (b % 16 * 16 + c / 4) :: (c % 4 * 64 + d) :: t)
        <$> b64Decode rest
    | _, _, _, _ => none

def utf8EncodeCp (c : Nat) : List Nat :=
  if c < 128 then [c]
  else if c < 2048 then [192 + c / 64, 128 + c % 64]
  else if c < 65536 then [224 + c / 4096, 128 + c / 64 % 64, 128 + c % 64]
  else [240 + c / 262144, 128 + c / 4096 % 64, 128 + c / 64 % 64, 128 + c % 64]

def utf8Encode (cs : List Nat) : List Nat := cs.flatMap utf8EncodeCp

/-- Strict UTF-8 decoding, processed byte-at-a-time: the first component
carries a pending multi-byte sequence (accumulated value, continuation bytes
still expected).  `utf8Decode` below starts with no pending sequence. -/
def utf8DecAux : Option (Nat × Nat) → List Nat → Option (List Nat)
  | none, [] => some []
  | some _, [] => none
  | none, b :: rest =>
    if b < 128 then (fun t => b :: t) <$> utf8DecAux none rest
    else if b < 192 then none
    else if b < 224 then utf8DecAux (some (b - 192, 1)) rest
    else if b < 240 then utf8DecAux (some (b - 224, 2)) rest
    else if b < 248 then utf8DecAux (some (b - 240, 3)) rest
    else none
  | some (acc, k), b :: rest =>
    if 128 ≤ b ∧ b < 192 then
      if k = 1 then (fun t => (acc * 64 + (b - 128)) :: t) <$> utf8DecAux none rest
      else utf8DecAux (some (acc * 64 + (b - 128), k - 1)) rest
    else none

def utf8Decode (bytes : List Nat) : Option (List Nat) := utf8DecAux none bytes

def hexDigCp (n : Nat) : Nat := if n < 10 then 48 + n else 87 + n

def hexVal (c : Nat) : Option Nat :=
  if 48 ≤ c ∧ c ≤ 57 then some (c - 48)
  else if 97 ≤ c ∧ c ≤ 102 then some (c - 87)
  else if 65 ≤ c ∧ c ≤ 70 then some (c - 55)
  else none

/-- `JSON.stringify` escaping of one string codepoint. -/
def jsonEscapeCp (c : Nat) : List Nat :=
  if c = 34 then [92, 34]
  else if c = 92 then [92, 92]
  else if c = 8 then [92, 98]
  else if c = 9 then [92, 116]
  else if c = 10 then [92, 110]
  else if c = 12 then [92, 102]
  else if c = 13 then [92, 114]
  else if c < 32 then [92, 117, 48, 48, hexDigCp (c / 16), hexDigCp (c % 16)]
  else [c]

def jsonQuote (cs : List Nat) : List Nat :=
  34 :: cs.flatMap jsonEscapeCp ++ [34]

/-- Codepoints of the literal key `channel`. -/
def channelKeyCps : List Nat := [99, 104, 97, 110, 110, 101, 108]

/-- Codepoints of `JSON.stringify({ channel: <chan> })`. -/
def jsonStringifyChannel (chan : List Nat) : List Nat :=
  123 :: (jsonQuote channelKeyCps ++ (58 :: (jsonQuote chan ++ [125])))

/-- Value of a single JSON escape character (after a backslash), other than
`u`. -/
def escVal (e : Nat) : Option Nat :=
  if e = 34 then some 34
  else if e = 92 then some 92
  else if e = 47 then some 47
  else if e = 98 then some 8
  else if e = 116 then some 9
  else if e = 110 then some 10
  else if e = 102 then some 12
  else if e = 114 then some 13
  else none

/-- Parse a JSON string body after the opening quote, up to and including the
closing quote; returns the decoded codepoints and the remaining input. -/
def parseStringBody : List Nat → Option (List Nat × List Nat)
  | [] => none
  | c :: rest =>
    if c = 34 then some ([], rest)
    else if c = 92 then
      match rest with
      | [] => none
      | e :: rest2 =>
        if e = 117 then
          match rest2 with
          | h1 :: h2 :: h3 :: h4 :: rest3 =>
            match hexVal h1, hexVal h2, hexVal h3, hexVal h4 with
            | some a, some b, some c2, some d =>
              (fun p => ((a * 4096 + b * 256 + c2 * 16 + d) :: p.1, p.2))
                <$> parseStringBody rest3
            | _, _, _, _ => none
          | _ => none
        else
          match escVal e with
          | some d => (fun p => (d :: p.1, p.2)) <$> parseStringBody rest2
          | none => none
    else if 32 ≤ c then (fun p => (c :: p.1, p.2)) <$> parseStringBody rest
    else none

def parseQuoted (cs : List Nat) : Option (List Nat × List Nat) :=
  match cs with
  | c :: rest => if c = 34 then parseStringBody rest else none
  | [] => none

/-- Parse the codepoints of an entire `{"channel": <string>}` object and
return the channel value, mirroring what
`JSON.parse(...).channel` yields on the state payloads this app produces. -/
def parseChannelObject (cs : List Nat) : Option (List Nat) :=
  match cs with
  | c :: rest =>
    if c = 123 then
      match parseQuoted rest with
      | some (key, rest2) =>
        if key = channelKeyCps then
          match rest2 with
          | c2 :: rest3 =>
            if c2 = 58 then
              match parseQuoted rest3 with
              | some (v, rest4) => if rest4 = [125] then some v else none
              | none => none
            else none
          | [] => none
        else none
      | none => none
    else none
  | [] => none

/-- The state token built by `GET /auth/twitch` (src/db.js:88). -/
def stateEncode (chan : String) : String :=
  String.mk ((b64Encode (utf8Encode (jsonStringifyChannel (chan.data.map Char.toNat)))).map
    Char.ofNat)

/-- The channel recovered by the callback from a state token
(src/db.js:112-113), lowercasing included; `none` when decoding fails. -/
def stateDecode (s : String) : Option String :=
  match b64Decode (s.data.map Char.toNat) with
  | none => none
  | some bytes =>
    match utf8Decode bytes with
    | none => none
    | some cps =>
      match parseChannelObject cps with
      | none => none
      | some chanCps => some (lowerStr (String.mk (chanCps.map Char.ofNat)))

/-! ### Provider oracles

Each outbound axios call's outcome is an oracle value.  An `httpErr` is a
non-2xx provider response (axios throws with `err.response.status` set); a
`transport` fault is a thrown error with no `response` object. -/

inductive TokenResp where
  | ok (access_token refresh_token : String)
  | httpErr (status : Nat)
  | transport
deriving DecidableEq, Repr

structure MetricPayload where
  total : Option Nat
  dataLen : Option Nat
deriving DecidableEq, Repr

inductive MetricResp where
  | ok (p : MetricPayload)
  | httpErr (status : Nat)
  | transport
deriving DecidableEq, Repr

/-- `res.data.total ?? res.data.data?.length ?? 0` (src/db.js:248). -/
def extractTotal (p : MetricPayload) : Nat :=
  match p.total with
  | some t => t
  | none =>
    match p.dataLen with
    | some n => n
    | none => 0

/-- The `UPDATE twitch_tokens SET access_token, refresh_token WHERE channel`
statement of the refresh helper (src/db.js:210-217): rewrites the tokens of the
matching row, inserts nothing. -/
def dbUpdateTokens (db : List (String × TokenInfo)) (channel a r : String) :
    List (String × TokenInfo) :=
  db.map fun p =>
    (p.1, if p.1 = channel then { p.2 with access_token := a, refresh_token := r } else p.2)

/-- `refreshAccessToken(channel, tokenInfo)` (src/db.js:179-230).  Returns the
refreshed record (or `none`), the new server state, and the number of outbound
network calls made.  `dbFail` models the `UPDATE` query throwing: the error is
caught by the surrounding `try`, so the function returns `null` while the
in-memory write (made before the query) stays. -/
def refreshAccessToken (st : ServerState) (channel : String) (tokenInfo : Option TokenInfo)
    (resp : TokenResp) (dbEnabled dbFail : Bool) : Option TokenInfo × ServerState × Nat :=
  match tokenInfo with
  | none => (none, st, 0)
  | some ti =>
    if ti.refresh_token = "" then (none, st, 0)
    else
      match resp with
      | .ok a r =>
        let newTi : TokenInfo := { ti with access_token := a, refresh_token := r }
        let st1 := { st with tokensByChannel := setKey st.tokensByChannel channel newTi }
        if dbEnabled then
          if dbFail then (none, st1, 1)
          else (some newTi, { st1 with db := dbUpdateTokens st1.db channel a r }, 1)
        else (some newTi, st1, 1)
      | .httpErr _ => (none, st, 1)
      | .transport => (none, st, 1)

/-- `getCurrentSubsForChannel(channel)` (src/db.js:233-277).  `metricResp i` is
the provider's answer to the i-th metric request of this call; `refreshResp` is
the token endpoint's answer should a refresh be attempted.  Returns the count
(or `none`), the new state, and the number of outbound METRIC requests made
(the refresh call is not a metric request). -/
def getCurrentSubsForChannel (st : ServerState) (channel : String)
    (metricResp : Nat → MetricResp) (refreshResp : TokenResp)
    (dbEnabled dbFail : Bool) : Option Nat × ServerState × Nat :=
  let key := lowerStr channel
  match getKey st.tokensByChannel key with
  | none => (none, st, 0)
  | some tokenInfo =>
    match metricResp 0 with
    | .ok p => (some (extractTotal p), st, 1)
    | .httpErr s =>
      if s = 401 then
        match refreshAccessToken st key (some tokenInfo) refreshResp dbEnabled dbFail with
        | (none, st1, _) => (none, st1, 1)
        | (some _, st1, _) =>
          match metricResp 1 with
          | .ok p2 => (some (extractTotal p2), st1, 2)
          | .httpErr _ => (none, st1, 2)
          | .transport => (none, st1, 2)
      else (none, st, 1)
    | .transport => (none, st, 1)

/-! ### HTTP handlers -/

inductive AuthStartResult where
  | missingChannel
  | redirect (state : String)
deriving DecidableEq, Repr

/-- `GET /auth/twitch` (src/db.js:80-100): requires a channel parameter and
embeds it (not lowercased) in the base64url state of the redirect URL. -/
def authStart (channelParam : String) : AuthStartResult :=
  if channelParam = "" then .missingChannel
  else .redirect (stateEncode channelParam)

inductive CallbackResult where
  | twitchError
  | invalidState
  | success (channel : String)
  | serverError
deriving DecidableEq, Repr

/-- `GET /auth/twitch/callback` (src/db.js:103-176).  `exchangeResp` is the
code-for-token exchange outcome; `userId` is `userRes.data.data[0].id` when the
identity fetch succeeds with a non-empty user list, `none` when the fetch fails
or the list is empty (either way `user.id` throws before any store is written).
`dbFail` models the upsert query throwing after the in-memory write. -/
def authCallback (st : ServerState) (error : Option String) (state : String)
    (exchangeResp : TokenResp) (userId : Option String) (dbEnabled dbFail : Bool) :
    CallbackResult × ServerState :=
  match error with
  | some _ => (.twitchError, st)
  | none =>
    match stateDecode state with
    | none => (.invalidState, st)
    | some channel =>
      match exchangeResp with
      | .ok a r =>
        match userId with
        | none => (.serverError, st)
        | some uid =>
          let newRec : TokenInfo := ⟨a, r, uid⟩
          let st1 := { st with tokensByChannel := setKey st.tokensByChannel channel newRec }
          if dbEnabled then
            if dbFail then (.serverError, st1)
            else (.success channel, { st1 with db := setKey st1.db channel newRec })
          else (.success channel, st1)
      | .httpErr _ => (.serverError, st)
      | .transport => (.serverError, st)

inductive SetGoalResult where
  | missingChannel
  | missingGoal
  | invalidGoal
  | ok (goal : Int)
deriving DecidableEq, Repr

/-- `/api/setgoal` (src/db.js:280-299).  `channelRaw` / `goalRaw` are the
merged body/query parameters; an absent parameter is the empty string (both
are falsy in the `!channel` / `!goalStr` guards). -/
def setGoalHandler (st : ServerState) (channelRaw goalRaw : String) :
    SetGoalResult × ServerState :=
  let channel := lowerStr channelRaw
  if channel = "" then (.missingChannel, st)
  else if goalRaw = "" then (.missingGoal, st)
  else
    match parseIntJS goalRaw with
    | none => (.invalidGoal, st)
    | some g =>
      if g ≤ 0 then (.invalidGoal, st)
      else (.ok g, { st with goalsByChannel := setKey st.goalsByChannel channel g })

/-- `goalsByChannel[channel]?.goal || 50` (src/db.js:305): the stored goal with
JavaScript truthiness (a stored 0 would also fall back to 50). -/
def getGoal (st : ServerState) (channel : String) : Int :=
  match getKey st.goalsByChannel channel with
  | none => 50
  | some g => if g = 0 then 50 else g

/-- `GET /api/subgoal` (src/db.js:302-313).  Always responds 200 with the JSON
body `(current, goal)`; an absent channel parameter is the empty string and
defaults to `test`. -/
def subgoalHandler (st : ServerState) (channelParam : String)
    (metricResp : Nat → MetricResp) (refreshResp : TokenResp)
    (dbEnabled dbFail : Bool) : (Nat × Int) × ServerState :=
  let channel := lowerStr (if channelParam = "" then "test" else channelParam)
  let goal := getGoal st channel
  match getCurrentSubsForChannel st channel metricResp refreshResp dbEnabled dbFail with
  | (none, st1, _) => ((0, goal), st1)
  | (some current, st1, _) => ((current, goal), st1)

/-- `loadTokens()` (src/db.js:56-72): fills `tokensByChannel` from the table
rows, lowercasing each row's channel key. -/
def loadTokens (st : ServerState) (rows : List (String × TokenInfo)) : ServerState :=
  { st with tokensByChannel :=
      rows.foldl (fun m row => setKey m (lowerStr row.1) row.2) st.tokensByChannel }

/-! ### Case-insensitivity of channel keys (C10) -/

/-- Every key of the two in-memory stores is already lowercase. -/
def lowerKeys (st : ServerState) : Prop :=
  (∀ p ∈ st.tokensByChannel, lowerStr p.1 = p.1) ∧
  (∀ p ∈ st.goalsByChannel, lowerStr p.1 = p.1)

/-! ### Theorems -/

theorem char_toNat_lt (c : Char) : c.toNat < 1114112 := by
  rcases c.valid with h | h <;> simp [Char.toNat] <;> omega

theorem char_toNat_not_surrogate (c : Char) :
    c.toNat < 55296 ∨ 57343 < c.toNat := by
  rcases c.valid with h | h <;> simp [Char.toNat] <;> omega

theorem char_ofNat_toNat_eq (n : Nat) (h : n.isValidChar) :
    (Char.ofNat n).toNat = n := by
  simp [Char.ofNat, h, Char.ofNatAux, Char.toNat, UInt32.toNat, BitVec.toNat_ofNatLt]

theorem lowerNat_valid (n : Nat) (h : n.isValidChar) : (lowerNat n).isValidChar := by
  rcases h with h | h
  · unfold lowerNat
    split
    · exact Or.inl (by omega)
    · exact Or.inl h
  · unfold lowerNat
    split
    · omega
    · exact Or.inr h

theorem lowerChar_toNat (c : Char) : (lowerChar c).toNat = lowerNat c.toNat := by
  unfold lowerChar
  apply char_ofNat_toNat_eq
  apply lowerNat_valid
  rcases char_toNat_not_surrogate c with h | h
  · exact Or.inl h
  · exact Or.inr ⟨by omega, char_toNat_lt c⟩

theorem lowerNat_idem (n : Nat) : lowerNat (lowerNat n) = lowerNat n := by
  by_cases h : 65 ≤ n ∧ n ≤ 90
  · have h2 : ¬(65 ≤ n + 32 ∧ n + 32 ≤ 90) := by omega
    simp [lowerNat, h, h2]
    omega
  · simp [lowerNat, h]

theorem lowerChar_idem (c : Char) : lowerChar (lowerChar c) = lowerChar c := by
  have h := lowerChar_toNat c
  unfold lowerChar at h ⊢
  rw [h, lowerNat_idem]

theorem lowerStr_idem (s : String) : lowerStr (lowerStr s) = lowerStr s := by
  unfold lowerStr
  congr 1
  show (s.data.map lowerChar).map lowerChar = s.data.map lowerChar
  rw [List.map_map]
  exact List.map_congr_left fun c _ => by
    show lowerChar (lowerChar c) = lowerChar c
    exact lowerChar_idem c

theorem lowerStr_length (s : String) : (lowerStr s).length = s.length := by
  show (s.data.map lowerChar).length = s.data.length
  simp

theorem lowerStr_empty_iff (s : String) : lowerStr s = "" ↔ s = "" := by
  constructor
  · intro h
    obtain ⟨d⟩ := s
    have hd : d.map lowerChar = ([] : List Char) := congrArg String.data h
    have hnil : d = [] := by
      cases d with
      | nil => rfl
      | cons a b => simp at hd
    rw [hnil]
  · intro h
    subst h
    rfl

theorem getKey_setKey_self {α : Type} (m : List (String × α)) (k : String) (v : α) :
    getKey (setKey m k v) k = some v := by
  induction m with
  | nil => simp [getKey, setKey]
  | cons p rest ih =>
    unfold setKey
    by_cases h : p.1 = k
    · simp [h, getKey]
    · simp [h, getKey, ih]

theorem getKey_setKey_other {α : Type} (m : List (String × α)) (k k2 : String) (v : α)
    (h : k2 ≠ k) : getKey (setKey m k v) k2 = getKey m k2 := by
  have hk2 : ¬(k = k2) := fun hh => h hh.symm
  induction m with
  | nil => simp [getKey, setKey, hk2]
  | cons p rest ih =>
    by_cases hp : p.1 = k
    · have hp2 : ¬(p.1 = k2) := by rw [hp]; exact hk2
      simp [setKey, hp, getKey, hk2, hp2]
    · by_cases hq : p.1 = k2
      · simp [setKey, hp, getKey, hq, h]
      · simp [setKey, hp, getKey, hq, ih]

/-! ### Claim theorems -/

/-- C1: a single call to `getCurrentSubsForChannel` issues at most two outbound
metric requests — the original and at most one retry after a refresh —
regardless of the provider's responses (in particular, of how many consecutive
authorization failures it returns). -/
theorem metric_requests_at_most_two (st : ServerState) (channel : String)
    (metricResp : Nat → MetricResp) (refreshResp : TokenResp) (dbEnabled dbFail : Bool) :
    (getCurrentSubsForChannel st channel metricResp refreshResp dbEnabled dbFail).2.2 ≤ 2 := by
  unfold getCurrentSubsForChannel
  rcases hg : getKey st.tokensByChannel (lowerStr channel) with _ | ti <;> simp [hg]
  rcases hm : metricResp 0 with p | s | _ <;> simp
  by_cases hs : s = 401
  · simp [hs]
    rcases hr : refreshAccessToken st (lowerStr channel) (some ti) refreshResp dbEnabled dbFail
      with ⟨o, st1, n⟩
    rcases o with _ | ri <;> simp
    rcases hm2 : metricResp 1 with p2 | s2 | _ <;> simp
  · simp [hs]

/-- C2: in the OAuth callback, when the code-for-token exchange succeeds but
the broadcaster-identity fetch fails (`userId = none`: the request threw or
returned no user, so `user.id` throws before any store assignment), the whole
server state — in particular `tokensByChannel` and the `twitch_tokens` table —
is left exactly as it was. -/
theorem callback_identity_failure_writes_nothing (st : ServerState) (state a r : String)
    (dbEnabled dbFail : Bool) :
    (authCallback st none state (TokenResp.ok a r) none dbEnabled dbFail).2 = st := by
  unfold authCallback
  rcases stateDecode state with _ | ch <;> simp

/-- C4: when the channel has no stored credential record, or its record has an
empty `refresh_token`, `refreshAccessToken` returns `null`, makes no outbound
network call, and changes nothing. -/
theorem refresh_missing_record_null_no_call (st : ServerState) (channel : String)
    (resp : TokenResp) (dbEnabled dbFail : Bool)
    (h : getKey st.tokensByChannel channel = none ∨
      ∃ ti, getKey st.tokensByChannel channel = some ti ∧ ti.refresh_token = "") :
    refreshAccessToken st channel (getKey st.tokensByChannel channel) resp dbEnabled dbFail
      = (none, st, 0) := by
  rcases h with h | ⟨ti, hti, hrt⟩
  · rw [h]
    rfl
  · rw [hti]
    unfold refreshAccessToken
    simp [hrt]

theorem refresh_missing_record_null_no_call_witness :
    refreshAccessToken ServerState.empty "x"
      (getKey ServerState.empty.tokensByChannel "x") TokenResp.transport false false
      = (none, ServerState.empty, 0) :=
  refresh_missing_record_null_no_call ServerState.empty "x" TokenResp.transport false false
    (Or.inl (by decide))

/-- C5 counterexample: the claim says a transport-level fault is not mapped to
a null return (only provider rejections are).  But for a channel with a stored
refresh token, a transport fault during the refresh exchange yields exactly the
null return (the catch-all `catch` swallows it; nothing is thrown). -/
theorem refresh_transport_fault_returns_null_cex :
    (refreshAccessToken ⟨[("x", ⟨"at", "rt", "bid"⟩)], [], []⟩ "x"
      (some ⟨"at", "rt", "bid"⟩) TokenResp.transport false false).1 = none := by decide

/-- C5 (amended): `refreshAccessToken` returns `null` whenever the refresh
exchange does not succeed — provider rejection and transport-level fault alike
— and never throws (the embedding is a total function; every failure path
returns `none`). -/
theorem refresh_null_on_any_failure (st : ServerState) (channel : String)
    (tokenInfo : Option TokenInfo) (resp : TokenResp) (dbEnabled dbFail : Bool)
    (h : ∀ a r, resp ≠ TokenResp.ok a r) :
    (refreshAccessToken st channel tokenInfo resp dbEnabled dbFail).1 = none := by
  rcases tokenInfo with _ | ti
  · rfl
  · unfold refreshAccessToken
    rcases resp with ⟨a, r⟩ | s | _
    · exact absurd rfl (h a r)
    · by_cases hrt : ti.refresh_token = "" <;> simp [hrt]
    · by_cases hrt : ti.refresh_token = "" <;> simp [hrt]

theorem refresh_null_on_any_failure_witness :
    (refreshAccessToken ServerState.empty "x" none TokenResp.transport false false).1
      = none :=
  refresh_null_on_any_failure ServerState.empty "x" none TokenResp.transport false false
    (fun _ _ h => nomatch h)

/-- Auxiliary: looking up any key in the result of the refresh helper's SQL
`UPDATE` leaves the `broadcaster_id` column of every row unchanged. -/
theorem dbUpdateTokens_broadcaster (db : List (String × TokenInfo)) (channel a r k : String) :
    (getKey (dbUpdateTokens db channel a r) k).map TokenInfo.broadcaster_id
      = (getKey db k).map TokenInfo.broadcaster_id := by
  induction db with
  | nil => rfl
  | cons p rest ih =>
    by_cases h : p.1 = k
    · simp [dbUpdateTokens, getKey, h]
      split <;> rfl
    · simp [dbUpdateTokens, getKey, h] at ih ⊢
      exact ih

/-- C3: when persistence is enabled, a successful run of the OAuth callback
leaves `tokensByChannel` and the `twitch_tokens` table holding the identical
credential record for the authorized channel. -/
theorem callback_success_writethrough (st : ServerState) (state a r uid ch : String)
    (dbFail : Bool) (st2 : ServerState)
    (h : authCallback st none state (TokenResp.ok a r) (some uid) true dbFail
      = (CallbackResult.success ch, st2)) :
    getKey st2.tokensByChannel ch = some ⟨a, r, uid⟩ ∧
    getKey st2.db ch = some ⟨a, r, uid⟩ := by
  unfold authCallback at h
  rcases hs : stateDecode state with _ | channel
  · rw [hs] at h
    simp at h
  · rw [hs] at h
    cases hb : dbFail
    · rw [hb] at h
      simp at h
      obtain ⟨hch, hst⟩ := h
      subst hch
      rw [← hst]
      exact ⟨getKey_setKey_self _ _ _, getKey_setKey_self _ _ _⟩
    · rw [hb] at h
      simp at h

theorem callback_success_writethrough_witness :
    getKey (⟨[("foo", ⟨"a", "r", "42"⟩)], [], [("foo", ⟨"a", "r", "42"⟩)]⟩ :
        ServerState).tokensByChannel "foo" = some ⟨"a", "r", "42"⟩ ∧
    getKey (⟨[("foo", ⟨"a", "r", "42"⟩)], [], [("foo", ⟨"a", "r", "42"⟩)]⟩ :
        ServerState).db "foo" = some ⟨"a", "r", "42"⟩ :=
  callback_success_writethrough ServerState.empty (stateEncode "Foo") "a" "r" "42" "foo"
    false ⟨[("foo", ⟨"a", "r", "42"⟩)], [], [("foo", ⟨"a", "r", "42"⟩)]⟩ (by decide)

/-- C6: a successful refresh replaces exactly `access_token` and
`refresh_token` of the channel's cached record (`broadcaster_id` kept), leaves
every other channel's cache entry untouched, and changes no `broadcaster_id` in
the durable table. -/
theorem refresh_success_frame (st : ServerState) (channel a r : String)
    (ti ri : TokenInfo) (dbEnabled dbFail : Bool)
    (hti : getKey st.tokensByChannel channel = some ti)
    (hsucc : (refreshAccessToken st channel (getKey st.tokensByChannel channel)
      (TokenResp.ok a r) dbEnabled dbFail).1 = some ri) :
    ri = { ti with access_token := a, refresh_token := r } ∧
    getKey (refreshAccessToken st channel (getKey st.tokensByChannel channel)
        (TokenResp.ok a r) dbEnabled dbFail).2.1.tokensByChannel channel
      = some { ti with access_token := a, refresh_token := r } ∧
    (∀ k, k ≠ channel →
      getKey (refreshAccessToken st channel (getKey st.tokensByChannel channel)
          (TokenResp.ok a r) dbEnabled dbFail).2.1.tokensByChannel k
        = getKey st.tokensByChannel k) ∧
    (∀ k, (getKey (refreshAccessToken st channel (getKey st.tokensByChannel channel)
          (TokenResp.ok a r) dbEnabled dbFail).2.1.db k).map TokenInfo.broadcaster_id
        = (getKey st.db k).map TokenInfo.broadcaster_id) := by
  rw [hti] at hsucc ⊢
  by_cases hrt : ti.refresh_token = ""
  · unfold refreshAccessToken at hsucc
    simp [hrt] at hsucc
  · cases dbEnabled
    · unfold refreshAccessToken at hsucc ⊢
      simp [hrt] at hsucc ⊢
      exact ⟨hsucc.symm, getKey_setKey_self _ _ _,
        fun k hk => getKey_setKey_other _ _ _ _ hk⟩
    · cases dbFail
      · unfold refreshAccessToken at hsucc ⊢
        simp [hrt] at hsucc ⊢
        exact ⟨hsucc.symm, getKey_setKey_self _ _ _,
          fun k hk => getKey_setKey_other _ _ _ _ hk,
          fun k => dbUpdateTokens_broadcaster _ _ _ _ _⟩
      · unfold refreshAccessToken at hsucc
        simp [hrt] at hsucc

theorem refresh_success_frame_witness :
    (⟨"a1", "r1", "b"⟩ : TokenInfo)
      = { (⟨"a0", "r0", "b"⟩ : TokenInfo) with access_token := "a1", refresh_token := "r1" } :=
  (refresh_success_frame ⟨[("c", ⟨"a0", "r0", "b"⟩)], [], [("c", ⟨"a0", "r0", "b"⟩)]⟩
    "c" "a1" "r1" ⟨"a0", "r0", "b"⟩ ⟨"a1", "r1", "b"⟩ true false (by decide) (by decide)).1

/-- C7: with the channel present and the goal parameter present, `setgoal`
responds `InvalidGoal` (400) and leaves the whole state — in particular the
stored goal — unchanged whenever `parseInt(goal, 10)` is `NaN` or nonpositive;
when it parses to a positive integer `g`, the handler accepts and a subsequent
goal read for that channel returns `g`. -/
theorem setgoal_validation (st : ServerState) (chRaw goalRaw : String)
    (hch : chRaw ≠ "") (hg : goalRaw ≠ "") :
    ((parseIntJS goalRaw = none ∨ ∃ g, parseIntJS goalRaw = some g ∧ g ≤ 0) →
      setGoalHandler st chRaw goalRaw = (SetGoalResult.invalidGoal, st)) ∧
    (∀ g, parseIntJS goalRaw = some g → 0 < g →
      (setGoalHandler st chRaw goalRaw).1 = SetGoalResult.ok g ∧
      getGoal (setGoalHandler st chRaw goalRaw).2 (lowerStr chRaw) = g) := by
  have hch2 : ¬(lowerStr chRaw = "") := fun h => hch ((lowerStr_empty_iff chRaw).mp h)
  constructor
  · rintro (hp | ⟨g, hp, hle⟩)
    · unfold setGoalHandler
      simp [hch2, hg, hp]
    · unfold setGoalHandler
      simp [hch2, hg, hp, hle]
  · intro g hp hpos
    have hle : ¬(g ≤ 0) := by omega
    have hg0 : ¬(g = 0) := by omega
    constructor
    · unfold setGoalHandler
      simp [hch2, hg, hp, hle]
    · unfold setGoalHandler
      simp [hch2, hg, hp, hle]
      unfold getGoal
      rw [getKey_setKey_self]
      simp [hg0]

theorem setgoal_validation_witness :
    setGoalHandler ServerState.empty "abc" "-5" = (SetGoalResult.invalidGoal,
      ServerState.empty) :=
  (setgoal_validation ServerState.empty "abc" "-5" (by decide) (by decide)).1
    (Or.inr ⟨-5, by decide, by decide⟩)

/-- C8: the metric-read endpoint always answers 200 with a `(current, goal)`
pair whose `goal` is the stored goal (default 50), whose `current` is 0
whenever the metric fetch yields `null`, and which is exactly `(0, 50)` for a
channel that never authorized and never set a goal. -/
theorem subgoal_response (st : ServerState) (chParam : String)
    (metricResp : Nat → MetricResp) (refreshResp : TokenResp) (dbEnabled dbFail : Bool) :
    ((subgoalHandler st chParam metricResp refreshResp dbEnabled dbFail).1.2
      = getGoal st (lowerStr (if chParam = "" then "test" else chParam))) ∧
    ((getCurrentSubsForChannel st (lowerStr (if chParam = "" then "test" else chParam))
        metricResp refreshResp dbEnabled dbFail).1 = none →
      (subgoalHandler st chParam metricResp refreshResp dbEnabled dbFail).1.1 = 0) ∧
    (getKey st.tokensByChannel (lowerStr (if chParam = "" then "test" else chParam)) = none →
     getKey st.goalsByChannel (lowerStr (if chParam = "" then "test" else chParam)) = none →
      subgoalHandler st chParam metricResp refreshResp dbEnabled dbFail = ((0, 50), st)) := by
  refine ⟨?_, ?_, ?_⟩
  · unfold subgoalHandler
    dsimp only
    rcases hc : getCurrentSubsForChannel st
        (lowerStr (if chParam = "" then "test" else chParam)) metricResp refreshResp
        dbEnabled dbFail with ⟨o, st1, n⟩
    rcases o with _ | cur <;> rfl
  · intro hnone
    unfold subgoalHandler
    dsimp only
    rcases hc : getCurrentSubsForChannel st
        (lowerStr (if chParam = "" then "test" else chParam)) metricResp refreshResp
        dbEnabled dbFail with ⟨o, st1, n⟩
    rw [hc] at hnone
    simp at hnone
    subst hnone
    rfl
  · intro htok hgoal
    have hkey : lowerStr (lowerStr (if chParam = "" then "test" else chParam))
        = lowerStr (if chParam = "" then "test" else chParam) := lowerStr_idem _
    unfold subgoalHandler getGoal getCurrentSubsForChannel
    dsimp only
    rw [hkey, htok, hgoal]

theorem subgoal_response_witness :
    subgoalHandler ServerState.empty "X" (fun _ => MetricResp.transport)
      TokenResp.transport false false = ((0, 50), ServerState.empty) :=
  (subgoal_response ServerState.empty "X" (fun _ => MetricResp.transport)
    TokenResp.transport false false).2.2 (by decide) (by decide)

/-! ### Codec roundtrip lemmas (for the state token) -/

theorem b64Val_b64Char (n : Nat) (h : n < 64) : b64Val (b64Char n) = some n := by
  have hall : ∀ m : Fin 64, b64Val (b64Char m.val) = some m.val := by decide
  exact hall ⟨n, h⟩

theorem b64Char_lt (n : Nat) : b64Char n < 128 := by
  unfold b64Char
  split_ifs <;> omega

theorem b64Encode_all_lt : ∀ bs : List Nat, ∀ x ∈ b64Encode bs, x < 128
  | [], x, hx => by simp [b64Encode] at hx
  | [a], x, hx => by
    simp [b64Encode] at hx
    rcases hx with rfl | rfl <;> exact b64Char_lt _
  | [a, b], x, hx => by
    simp [b64Encode] at hx
    rcases hx with rfl | rfl | rfl <;> exact b64Char_lt _
  | a :: b :: c :: rest, x, hx => by
    simp only [b64Encode, List.mem_cons] at hx
    rcases hx with rfl | rfl | rfl | rfl | hx
    · exact b64Char_lt _
    · exact b64Char_lt _
    · exact b64Char_lt _
    · exact b64Char_lt _
    · exact b64Encode_all_lt rest x hx

theorem b64_roundtrip : ∀ bs : List Nat, (∀ b ∈ bs, b < 256) →
    b64Decode (b64Encode bs) = some bs
  | [], _ => rfl
  | [a], h => by
    have ha : a < 256 := h a (by simp)
    have h1 := b64Val_b64Char (a / 4) (by omega)
    have h2 := b64Val_b64Char (a % 4 * 16) (by omega)
    simp [b64Encode, b64Decode, h1, h2]
    omega
  | [a, b], h => by
    have ha : a < 256 := h a (by simp)
    have hb : b < 256 := h b (by simp)
    have h1 := b64Val_b64Char (a / 4) (by omega)
    have h2 := b64Val_b64Char (a % 4 * 16 + b / 16) (by omega)
    have h3 := b64Val_b64Char (b % 16 * 4) (by omega)
    simp [b64Encode, b64Decode, h1, h2, h3]
    omega
  | a :: b :: c :: rest, h => by
    have ha : a < 256 := h a (by simp)
    have hb : b < 256 := h b (by simp)
    have hc : c < 256 := h c (by simp)
    have ih := b64_roundtrip rest (fun x hx => h x (by simp [hx]))
    have h1 := b64Val_b64Char (a / 4) (by omega)
    have h2 := b64Val_b64Char (a % 4 * 16 + b / 16) (by omega)
    have h3 := b64Val_b64Char (b % 16 * 4 + c / 64) (by omega)
    have h4 := b64Val_b64Char (c % 64) (by omega)
    simp [b64Encode, b64Decode, h1, h2, h3, h4, ih]
    omega

theorem utf8EncodeCp_all_lt (c : Nat) (h : c < 1114112) : ∀ b ∈ utf8EncodeCp c, b < 256 := by
  intro b hb
  unfold utf8EncodeCp at hb
  split_ifs at hb <;> simp at hb <;> rcases hb with rfl | rfl | rfl | rfl <;> omega

theorem utf8Encode_all_lt (cs : List Nat) (h : ∀ c ∈ cs, c < 1114112) :
    ∀ b ∈ utf8Encode cs, b < 256 := by
  intro b hb
  unfold utf8Encode at hb
  simp [List.mem_flatMap] at hb
  obtain ⟨c, hc, hbc⟩ := hb
  exact utf8EncodeCp_all_lt c (h c hc) b hbc

theorem utf8DecAux_none_cons (b : Nat) (rest : List Nat) :
    utf8DecAux none (b :: rest)
      = if b < 128 then (fun t => b :: t) <$> utf8DecAux none rest
        else if b < 192 then none
        else if b < 224 then utf8DecAux (some (b - 192, 1)) rest
        else if b < 240 then utf8DecAux (some (b - 224, 2)) rest
        else if b < 248 then utf8DecAux (some (b - 240, 3)) rest
        else none := rfl

theorem utf8DecAux_pending_cons (acc k b : Nat) (rest : List Nat) :
    utf8DecAux (some (acc, k)) (b :: rest)
      = if 128 ≤ b ∧ b < 192 then
          if k = 1 then (fun t => (acc * 64 + (b - 128)) :: t) <$> utf8DecAux none rest
          else utf8DecAux (some (acc * 64 + (b - 128), k - 1)) rest
        else none := rfl

theorem utf8_roundtrip : ∀ cs : List Nat, (∀ c ∈ cs, c < 1114112) →
    utf8Decode (utf8Encode cs) = some cs
  | [], _ => rfl
  | c :: rest, h => by
    have hc : c < 1114112 := h c (by simp)
    have ih := utf8_roundtrip rest (fun x hx => h x (by simp [hx]))
    unfold utf8Decode at ih ⊢
    have hflat : utf8Encode (c :: rest) = utf8EncodeCp c ++ utf8Encode rest := by
      simp [utf8Encode]
    rw [hflat]
    by_cases h1 : c < 128
    · have henc : utf8EncodeCp c = [c] := by simp [utf8EncodeCp, h1]
      rw [henc]
      show utf8DecAux none (c :: utf8Encode rest) = some (c :: rest)
      rw [utf8DecAux_none_cons]
      simp [h1, ih]
    · by_cases h2 : c < 2048
      · have henc : utf8EncodeCp c = [192 + c / 64, 128 + c % 64] := by
          simp [utf8EncodeCp, h1, h2]
        rw [henc]
        show utf8DecAux none ((192 + c / 64) :: (128 + c % 64) :: utf8Encode rest)
          = some (c :: rest)
        rw [utf8DecAux_none_cons]
        have e1 : ¬(192 + c / 64 < 128) := by omega
        have e2 : ¬(192 + c / 64 < 192) := by omega
        have e3 : 192 + c / 64 < 224 := by omega
        rw [if_neg e1, if_neg e2, if_pos e3, utf8DecAux_pending_cons]
        have e4 : 128 ≤ 128 + c % 64 ∧ 128 + c % 64 < 192 := by omega
        rw [if_pos e4, if_pos rfl, ih]
        simp
        omega
      · by_cases h3 : c < 65536
        · have henc : utf8EncodeCp c = [224 + c / 4096, 128 + c / 64 % 64, 128 + c % 64] := by
            simp [utf8EncodeCp, h1, h2, h3]
          rw [henc]
          show utf8DecAux none
              ((224 + c / 4096) :: (128 + c / 64 % 64) :: (128 + c % 64) :: utf8Encode rest)
            = some (c :: rest)
          rw [utf8DecAux_none_cons]
          have e1 : ¬(224 + c / 4096 < 128) := by omega
          have e2 : ¬(224 + c / 4096 < 192) := by omega
          have e3 : ¬(224 + c / 4096 < 224) := by omega
          have e4 : 224 + c / 4096 < 240 := by omega
          rw [if_neg e1, if_neg e2, if_neg e3, if_pos e4, utf8DecAux_pending_cons]
          have e5 : 128 ≤ 128 + c / 64 % 64 ∧ 128 + c / 64 % 64 < 192 := by omega
          have e6 : ¬((2 : Nat) = 1) := by omega
          rw [if_pos e5, if_neg e6, utf8DecAux_pending_cons]
          have e7 : 128 ≤ 128 + c % 64 ∧ 128 + c % 64 < 192 := by omega
          rw [if_pos e7, if_pos rfl, ih]
          simp
          omega
        · have henc : utf8EncodeCp c
              = [240 + c / 262144, 128 + c / 4096 % 64, 128 + c / 64 % 64, 128 + c % 64] := by
            simp [utf8EncodeCp, h1, h2, h3]
          rw [henc]
          show utf8DecAux none
              ((240 + c / 262144) :: (128 + c / 4096 % 64) :: (128 + c / 64 % 64)
                :: (128 + c % 64) :: utf8Encode rest)
            = some (c :: rest)
          rw [utf8DecAux_none_cons]
          have e1 : ¬(240 + c / 262144 < 128) := by omega
          have e2 : ¬(240 + c / 262144 < 192) := by omega
          have e3 : ¬(240 + c / 262144 < 224) := by omega
          have e4 : ¬(240 + c / 262144 < 240) := by omega
          have e5 : 240 + c / 262144 < 248 := by omega
          rw [if_neg e1, if_neg e2, if_neg e3, if_neg e4, if_pos e5, utf8DecAux_pending_cons]
          have e6 : 128 ≤ 128 + c / 4096 % 64 ∧ 128 + c / 4096 % 64 < 192 := by omega
          have e7 : ¬((3 : Nat) = 1) := by omega
          rw [if_pos e6, if_neg e7, utf8DecAux_pending_cons]
          have e8 : 128 ≤ 128 + c / 64 % 64 ∧ 128 + c / 64 % 64 < 192 := by omega
          have e9 : ¬((2 : Nat) = 1) := by omega
          rw [if_pos e8, if_neg e9, utf8DecAux_pending_cons]
          have e10 : 128 ≤ 128 + c % 64 ∧ 128 + c % 64 < 192 := by omega
          rw [if_pos e10, if_pos rfl, ih]
          simp
          omega

theorem hexVal_hexDigCp (n : Nat) (h : n < 16) : hexVal (hexDigCp n) = some n := by
  have hall : ∀ m : Fin 16, hexVal (hexDigCp m.val) = some m.val := by decide
  exact hall ⟨n, h⟩

theorem psb_quote (rest : List Nat) : parseStringBody (34 :: rest) = some ([], rest) := by
  rw [parseStringBody.eq_def]
  simp

theorem psb_esc (e : Nat) (rest : List Nat) (hne : ¬(e = 117)) :
    parseStringBody (92 :: e :: rest)
      = match escVal e with
        | some d => (fun p => (d :: p.1, p.2)) <$> parseStringBody rest
        | none => none := by
  rw [parseStringBody.eq_def]
  simp [hne]

theorem psb_unicode (h1 h2 h3 h4 : Nat) (rest : List Nat) :
    parseStringBody (92 :: 117 :: h1 :: h2 :: h3 :: h4 :: rest)
      = match hexVal h1, hexVal h2, hexVal h3, hexVal h4 with
        | some a, some b, some c2, some d =>
          (fun p => ((a * 4096 + b * 256 + c2 * 16 + d) :: p.1, p.2)) <$> parseStringBody rest
        | _, _, _, _ => none := by
  rw [parseStringBody.eq_def]
  simp

theorem psb_plain (c : Nat) (rest : List Nat) (hq : ¬(c = 34)) (hb : ¬(c = 92))
    (h32 : 32 ≤ c) :
    parseStringBody (c :: rest) = (fun p => (c :: p.1, p.2)) <$> parseStringBody rest := by
  rw [parseStringBody.eq_def]
  simp [hq, hb, h32]

theorem parseStringBody_escape : ∀ (cs tail : List Nat),
    parseStringBody (cs.flatMap jsonEscapeCp ++ 34 :: tail) = some (cs, tail)
  | [], tail => by
    rw [show ([] : List Nat).flatMap jsonEscapeCp ++ 34 :: tail = 34 :: tail by simp]
    exact psb_quote tail
  | c :: rest, tail => by
    have ih := parseStringBody_escape rest tail
    have hflat : (c :: rest).flatMap jsonEscapeCp
        = jsonEscapeCp c ++ rest.flatMap jsonEscapeCp := by simp
    rw [hflat, List.append_assoc]
    by_cases h1 : c = 34
    · subst h1
      rw [show jsonEscapeCp 34 = [92, 34] from rfl]
      simp only [List.cons_append, List.nil_append]
      rw [psb_esc 34 _ (by decide)]
      simp [escVal, ih]
    · by_cases h2 : c = 92
      · subst h2
        rw [show jsonEscapeCp 92 = [92, 92] from rfl]
        simp only [List.cons_append, List.nil_append]
        rw [psb_esc 92 _ (by decide)]
        simp [escVal, ih]
      · by_cases h3 : c = 8
        · subst h3
          rw [show jsonEscapeCp 8 = [92, 98] from rfl]
          simp only [List.cons_append, List.nil_append]
          rw [psb_esc 98 _ (by decide)]
          simp [escVal, ih]
        · by_cases h4 : c = 9
          · subst h4
            rw [show jsonEscapeCp 9 = [92, 116] from rfl]
            simp only [List.cons_append, List.nil_append]
            rw [psb_esc 116 _ (by decide)]
            simp [escVal, ih]
          · by_cases h5 : c = 10
            · subst h5
              rw [show jsonEscapeCp 10 = [92, 110] from rfl]
              simp only [List.cons_append, List.nil_append]
              rw [psb_esc 110 _ (by decide)]
              simp [escVal, ih]
            · by_cases h6 : c = 12
              · subst h6
                rw [show jsonEscapeCp 12 = [92, 102] from rfl]
                simp only [List.cons_append, List.nil_append]
                rw [psb_esc 102 _ (by decide)]
                simp [escVal, ih]
              · by_cases h7 : c = 13
                · subst h7
                  rw [show jsonEscapeCp 13 = [92, 114] from rfl]
                  simp only [List.cons_append, List.nil_append]
                  rw [psb_esc 114 _ (by decide)]
                  simp [escVal, ih]
                · by_cases h8 : c < 32
                  · have he : jsonEscapeCp c
                        = [92, 117, 48, 48, hexDigCp (c / 16), hexDigCp (c % 16)] := by
                      simp [jsonEscapeCp, h1, h2, h3, h4, h5, h6, h7, h8]
                    have hx1 : hexVal (hexDigCp (c / 16)) = some (c / 16) :=
                      hexVal_hexDigCp _ (by omega)
                    have hx2 : hexVal (hexDigCp (c % 16)) = some (c % 16) :=
                      hexVal_hexDigCp _ (by omega)
                    rw [he]
                    simp only [List.cons_append, List.nil_append]
                    rw [psb_unicode]
                    rw [show hexVal 48 = some 0 from rfl, hx1, hx2, ih]
                    simp
                    omega
                  · have he : jsonEscapeCp c = [c] := by
                      simp [jsonEscapeCp, h1, h2, h3, h4, h5, h6, h7, h8]
                    rw [he]
                    simp only [List.cons_append, List.nil_append]
                    rw [psb_plain c _ h1 h2 (by omega), ih]
                    rfl

theorem parseQuoted_quote (cs X : List Nat) :
    parseQuoted (jsonQuote cs ++ X) = some (cs, X) := by
  have h : jsonQuote cs ++ X = 34 :: (cs.flatMap jsonEscapeCp ++ 34 :: X) := by
    simp [jsonQuote]
  rw [h]
  unfold parseQuoted
  simp [parseStringBody_escape]

theorem parseChannelObject_stringify (chan : List Nat) :
    parseChannelObject (jsonStringifyChannel chan) = some chan := by
  unfold jsonStringifyChannel parseChannelObject
  simp [parseQuoted_quote channelKeyCps (58 :: (jsonQuote chan ++ [125])),
    parseQuoted_quote chan [125]]

theorem jsonEscapeCp_all_lt (c : Nat) (h : c < 1114112) : ∀ x ∈ jsonEscapeCp c, x < 1114112 := by
  intro x hx
  unfold jsonEscapeCp hexDigCp at hx
  split_ifs at hx <;> simp at hx <;> omega

theorem jsonQuote_all_lt (cs : List Nat) (h : ∀ c ∈ cs, c < 1114112) :
    ∀ x ∈ jsonQuote cs, x < 1114112 := by
  intro x hx
  unfold jsonQuote at hx
  rcases List.mem_cons.mp hx with rfl | hx2
  · omega
  · rcases List.mem_append.mp hx2 with hx3 | hx3
    · rcases List.mem_flatMap.mp hx3 with ⟨c, hc, hcc⟩
      exact jsonEscapeCp_all_lt c (h c hc) x hcc
    · simp at hx3
      omega

theorem jsonStringify_all_lt (cps : List Nat) (h : ∀ c ∈ cps, c < 1114112) :
    ∀ x ∈ jsonStringifyChannel cps, x < 1114112 := by
  intro x hx
  unfold jsonStringifyChannel at hx
  rcases List.mem_cons.mp hx with rfl | hx2
  · omega
  · rcases List.mem_append.mp hx2 with hx3 | hx3
    · exact jsonQuote_all_lt channelKeyCps (by decide) x hx3
    · rcases List.mem_cons.mp hx3 with rfl | hx4
      · omega
      · rcases List.mem_append.mp hx4 with hx5 | hx5
        · exact jsonQuote_all_lt cps h x hx5
        · simp at hx5
          omega

theorem valid_of_lt_128 (x : Nat) (h : x < 128) : x.isValidChar := Or.inl (by omega)

theorem map_ofNat_toNat (L : List Nat) (h : ∀ x ∈ L, x.isValidChar) :
    (L.map Char.ofNat).map Char.toNat = L := by
  rw [List.map_map]
  have h2 : ∀ x ∈ L, (Char.toNat ∘ Char.ofNat) x = id x := fun x hx =>
    char_ofNat_toNat_eq x (h x hx)
  rw [List.map_congr_left h2, List.map_id]

theorem map_toNat_ofNat (L : List Char) : (L.map Char.toNat).map Char.ofNat = L := by
  rw [List.map_map]
  have h2 : ∀ c ∈ L, (Char.ofNat ∘ Char.toNat) c = id c := fun c _ => Char.ofNat_toNat c
  rw [List.map_congr_left h2, List.map_id]

theorem string_mk_data (s : String) : String.mk s.data = s := by
  cases s
  rfl

theorem state_roundtrip_aux (chan : String) :
    stateDecode (stateEncode chan) = some (lowerStr chan) := by
  have hcps : ∀ c ∈ chan.data.map Char.toNat, c < 1114112 := by
    intro c hc
    rcases List.mem_map.mp hc with ⟨ch, _, rfl⟩
    exact char_toNat_lt ch
  have hjson := jsonStringify_all_lt (chan.data.map Char.toNat) hcps
  have hbytes := utf8Encode_all_lt _ hjson
  have hvalid : ∀ x ∈ b64Encode (utf8Encode (jsonStringifyChannel (chan.data.map Char.toNat))),
      x.isValidChar := fun x hx => valid_of_lt_128 x (b64Encode_all_lt _ x hx)
  unfold stateDecode stateEncode
  have hdata : (String.mk ((b64Encode (utf8Encode (jsonStringifyChannel
        (chan.data.map Char.toNat)))).map Char.ofNat)).data
      = (b64Encode (utf8Encode (jsonStringifyChannel (chan.data.map Char.toNat)))).map
        Char.ofNat := rfl
  rw [hdata, map_ofNat_toNat _ hvalid, b64_roundtrip _ hbytes]
  dsimp only
  rw [utf8_roundtrip _ hjson]
  dsimp only
  rw [parseChannelObject_stringify]
  dsimp only
  rw [map_toNat_ofNat, string_mk_data]

/-- C9: the state token built by the authorization-start handler decodes, in
the callback, back to the original channel lowercased; and the callback
answers `Invalid state` (400) exactly when state decoding fails. -/
theorem state_token_roundtrip (chan : String) (st : ServerState) (s : String)
    (exch : TokenResp) (userId : Option String) (dbEnabled dbFail : Bool) :
    (chan ≠ "" → authStart chan = AuthStartResult.redirect (stateEncode chan)) ∧
    stateDecode (stateEncode chan) = some (lowerStr chan) ∧
    ((authCallback st none s exch userId dbEnabled dbFail).1 = CallbackResult.invalidState
      ↔ stateDecode s = none) := by
  refine ⟨?_, state_roundtrip_aux chan, ?_⟩
  · intro h
    unfold authStart
    simp [h]
  · unfold authCallback
    rcases hs : stateDecode s with _ | ch
    · simp
    · rcases exch with ⟨a, r⟩ | s2 | _
      · rcases userId with _ | uid
        · simp
        · cases dbEnabled <;> cases dbFail <;> simp
      · simp
      · simp

theorem state_token_roundtrip_witness :
    stateDecode (stateEncode "MyChannel") = some "mychannel" := by
  have h := (state_token_roundtrip "MyChannel" ServerState.empty "" TokenResp.transport none
    false false).2.1
  rw [h]
  decide

theorem setKey_lower {α : Type} (m : List (String × α)) (k : String) (v : α)
    (hm : ∀ p ∈ m, lowerStr p.1 = p.1) (hk : lowerStr k = k) :
    ∀ p ∈ setKey m k v, lowerStr p.1 = p.1 := by
  induction m with
  | nil =>
    intro p hp
    simp [setKey] at hp
    rw [hp]
    exact hk
  | cons q rest ih =>
    intro p hp
    unfold setKey at hp
    by_cases h : q.1 = k
    · rw [if_pos h] at hp
      rcases List.mem_cons.mp hp with rfl | hp2
      · exact hk
      · exact hm p (List.mem_cons_of_mem q hp2)
    · rw [if_neg h] at hp
      rcases List.mem_cons.mp hp with hpq | hp2
      · rw [hpq]
        exact hm q (List.mem_cons_self q rest)
      · exact ih (fun x hx => hm x (List.mem_cons_of_mem q hx)) p hp2

theorem refresh_preserves_lowerKeys (st : ServerState) (channel : String)
    (tokenInfo : Option TokenInfo) (resp : TokenResp) (dbEnabled dbFail : Bool)
    (hch : lowerStr channel = channel) (h : lowerKeys st) :
    lowerKeys (refreshAccessToken st channel tokenInfo resp dbEnabled dbFail).2.1 := by
  rcases tokenInfo with _ | ti
  · exact h
  · unfold refreshAccessToken
    dsimp only
    by_cases hrt : ti.refresh_token = ""
    · rw [if_pos hrt]
      exact h
    · rw [if_neg hrt]
      rcases resp with ⟨a, r⟩ | s | _
      · dsimp only
        cases dbEnabled
        · exact ⟨setKey_lower _ _ _ h.1 hch, h.2⟩
        · cases dbFail
          · exact ⟨setKey_lower _ _ _ h.1 hch, h.2⟩
          · exact ⟨setKey_lower _ _ _ h.1 hch, h.2⟩
      · exact h
      · exact h

theorem getCurrent_preserves_lowerKeys (st : ServerState) (channel : String)
    (metricResp : Nat → MetricResp) (refreshResp : TokenResp) (dbEnabled dbFail : Bool)
    (h : lowerKeys st) :
    lowerKeys (getCurrentSubsForChannel st channel metricResp refreshResp
      dbEnabled dbFail).2.1 := by
  unfold getCurrentSubsForChannel
  dsimp only
  rcases hg : getKey st.tokensByChannel (lowerStr channel) with _ | ti
  · exact h
  · dsimp only
    rcases hm0 : metricResp 0 with p | s | _
    · exact h
    · dsimp only
      by_cases hs : s = 401
      · rw [if_pos hs]
        have hr := refresh_preserves_lowerKeys st (lowerStr channel) (some ti) refreshResp
          dbEnabled dbFail (lowerStr_idem channel) h
        rcases hrr : refreshAccessToken st (lowerStr channel) (some ti) refreshResp
            dbEnabled dbFail with ⟨o, st1, n⟩
        rw [hrr] at hr
        rcases o with _ | ri
        · exact hr
        · rcases metricResp 1 with p2 | s2 | _ <;> exact hr
      · rw [if_neg hs]
        exact h
    · exact h

theorem stateDecode_lower (s ch : String) (h : stateDecode s = some ch) :
    lowerStr ch = ch := by
  unfold stateDecode at h
  rcases hb : b64Decode (s.data.map Char.toNat) with _ | bytes <;> rw [hb] at h
  · simp at h
  · dsimp only at h
    rcases hu : utf8Decode bytes with _ | cps <;> rw [hu] at h
    · simp at h
    · dsimp only at h
      rcases hp : parseChannelObject cps with _ | v <;> rw [hp] at h
      · simp at h
      · simp at h
        rw [← h]
        exact lowerStr_idem _

theorem callback_preserves_lowerKeys (st : ServerState) (error : Option String)
    (state : String) (exch : TokenResp) (userId : Option String) (dbEnabled dbFail : Bool)
    (h : lowerKeys st) :
    lowerKeys (authCallback st error state exch userId dbEnabled dbFail).2 := by
  unfold authCallback
  rcases error with _ | e
  · rcases hs : stateDecode state with _ | ch
    · exact h
    · dsimp only
      have hch := stateDecode_lower _ _ hs
      rcases exch with ⟨a, r⟩ | s2 | _
      · rcases userId with _ | uid
        · exact h
        · cases dbEnabled <;> cases dbFail <;>
            exact ⟨setKey_lower _ _ _ h.1 hch, h.2⟩
      · exact h
      · exact h
  · exact h

theorem foldl_setKey_lower (rows : List (String × TokenInfo)) :
    ∀ m, (∀ p ∈ m, lowerStr p.1 = p.1) →
    ∀ p ∈ rows.foldl (fun m row => setKey m (lowerStr row.1) row.2) m,
      lowerStr p.1 = p.1 := by
  induction rows with
  | nil =>
    intro m hm
    simpa using hm
  | cons row rest ih =>
    intro m hm
    simp only [List.foldl_cons]
    exact ih _ (setKey_lower _ _ _ hm (lowerStr_idem _))

theorem setGoal_step (st : ServerState) (chRaw goalRaw : String) (h : lowerKeys st) :
    lowerKeys (setGoalHandler st chRaw goalRaw).2 := by
  unfold setGoalHandler
  dsimp only
  by_cases h1 : lowerStr chRaw = ""
  · rw [if_pos h1]
    exact h
  · rw [if_neg h1]
    by_cases h2 : goalRaw = ""
    · rw [if_pos h2]
      exact h
    · rw [if_neg h2]
      rcases hp : parseIntJS goalRaw with _ | g
      · exact h
      · dsimp only
        by_cases h3 : g ≤ 0
        · rw [if_pos h3]
          exact h
        · rw [if_neg h3]
          exact ⟨h.1, setKey_lower _ _ _ h.2 (lowerStr_idem chRaw)⟩

theorem subgoal_preserves_lowerKeys (st : ServerState) (chParam : String)
    (metricResp : Nat → MetricResp) (refreshResp : TokenResp) (dbEnabled dbFail : Bool)
    (h : lowerKeys st) :
    lowerKeys (subgoalHandler st chParam metricResp refreshResp dbEnabled dbFail).2 := by
  unfold subgoalHandler
  dsimp only
  have hg := getCurrent_preserves_lowerKeys st
    (lowerStr (if chParam = "" then "test" else chParam)) metricResp refreshResp
    dbEnabled dbFail h
  rcases hc : getCurrentSubsForChannel st
      (lowerStr (if chParam = "" then "test" else chParam)) metricResp refreshResp
      dbEnabled dbFail with ⟨o, st1, n⟩
  rw [hc] at hg
  rcases o with _ | cur <;> exact hg

/-- C10: channel identifiers are case-insensitive throughout.  Every public
operation (goal set, metric read, metric fetch, authorization callback,
startup load) preserves the invariant that every key of `tokensByChannel` and
`goalsByChannel` is lowercase, and the operations taking a channel argument
give identical results for a channel and its lowercased form. -/
theorem channel_case_insensitivity (st : ServerState)
    (chRaw goalRaw chParam channel state : String)
    (metricResp : Nat → MetricResp) (refreshResp exch : TokenResp)
    (userId : Option String) (dbEnabled dbFail : Bool) (error : Option String)
    (rows : List (String × TokenInfo)) (h : lowerKeys st) :
    lowerKeys (setGoalHandler st chRaw goalRaw).2 ∧
    lowerKeys (subgoalHandler st chParam metricResp refreshResp dbEnabled dbFail).2 ∧
    lowerKeys (getCurrentSubsForChannel st channel metricResp refreshResp
      dbEnabled dbFail).2.1 ∧
    lowerKeys (authCallback st error state exch userId dbEnabled dbFail).2 ∧
    lowerKeys (loadTokens st rows) ∧
    setGoalHandler st chRaw goalRaw = setGoalHandler st (lowerStr chRaw) goalRaw ∧
    getCurrentSubsForChannel st channel metricResp refreshResp dbEnabled dbFail
      = getCurrentSubsForChannel st (lowerStr channel) metricResp refreshResp
          dbEnabled dbFail ∧
    (chParam ≠ "" →
      subgoalHandler st chParam metricResp refreshResp dbEnabled dbFail
        = subgoalHandler st (lowerStr chParam) metricResp refreshResp dbEnabled dbFail) := by
  refine ⟨setGoal_step st chRaw goalRaw h,
    subgoal_preserves_lowerKeys st chParam metricResp refreshResp dbEnabled dbFail h,
    getCurrent_preserves_lowerKeys st channel metricResp refreshResp dbEnabled dbFail h,
    callback_preserves_lowerKeys st error state exch userId dbEnabled dbFail h,
    ⟨foldl_setKey_lower rows st.tokensByChannel h.1, h.2⟩, ?_, ?_, ?_⟩
  · unfold setGoalHandler
    rw [lowerStr_idem]
  · unfold getCurrentSubsForChannel
    rw [lowerStr_idem]
  · intro hne
    have hne2 : ¬(lowerStr chParam = "") := fun hh => hne ((lowerStr_empty_iff chParam).mp hh)
    have hne3 : ¬(chParam = "") := hne
    unfold subgoalHandler
    rw [if_neg hne3, if_neg hne2, lowerStr_idem]

theorem channel_case_insensitivity_witness :
    setGoalHandler ServerState.empty "AbC" "10"
      = setGoalHandler ServerState.empty (lowerStr "AbC") "10" :=
  (channel_case_insensitivity ServerState.empty "AbC" "10" "x" "y" ""
    (fun _ => MetricResp.transport) TokenResp.transport TokenResp.transport none
    false false none []
    (by refine ⟨?_, ?_⟩ <;> intro p hp <;> simp [ServerState.empty] at hp)).2.2.2.2.2.1
